import Mathlib

/-!
Shallow embedding of the bifrost terminal client (Go) and verification of
its specification claims.

The embedding translates the Go sources function by function:
* decimal rendering of non-negative integers (the `%d` verb used by
  `fmt.Sprintf` in `getUniqueFilePath`),
* the `path`/`path/filepath` standard-library functions the sources call
  (`Clean`, `Join`, `IsAbs`, `Dir`, `Base`, `Ext`, `strings.TrimSuffix`,
  `strings.HasPrefix`),
* the `internal/sftp` client (`ChangeDir`, `Delete`, `GetWorkingDir`),
* the SFTP file browser (`internal/tui/views/sftp_browser.go`),
* the confirmation modal (`internal/tui/views/connection_form.go`),
* the config store (`internal/config`) and the keyring wrapper,
* the top-level router handlers (`internal/tui/tui.go`).

External collaborators (the remote SFTP server, the local filesystem, the
OS keyring, the on-disk config file, the clipboard) are modelled as oracle
records passed to the functions that call them; each call site reads the
oracle exactly where the Go code performs the corresponding I/O.  Go code
that would panic (out-of-range slice indexing) is modelled by an `Option`
result, `none` standing for the panic.
-/

namespace Bifrost

/-- Decimal digits of `n`, least significant first, computed with explicit
fuel (`fuel ≥ n` suffices). -/
def natDigitsRev : Nat → Nat → List Nat
  | 0, _ => []
  | fuel + 1, n => if n = 0 then [] else n % 10 :: natDigitsRev fuel (n / 10)

/-- The character of a single decimal digit. -/
def digitChar (d : Nat) : Char := Char.ofNat (48 + d)

/-- Decimal rendering of a natural number, as Go `fmt.Sprintf("%d", n)`
produces for a non-negative integer. -/
def natToStr (n : Nat) : String :=
  if n = 0 then "0" else ⟨((natDigitsRev n n).reverse).map digitChar⟩

/-- Value of a digit list, least significant first. -/
def digitsRevToNat : List Nat → Nat
  | [] => 0
  | d :: ds => d + 10 * digitsRevToNat ds

/-- Decoder used to show `natToStr` is injective. -/
def strDecode (s : String) : Nat :=
  digitsRevToNat (s.data.reverse.map (fun c => c.toNat - 48))

/-- Split a character list on a separator; groups keep their order and
empty groups are preserved (as `strings.Split` does). -/
def listSplit (sep : Char) : List Char → List (List Char)
  | [] => [[]]
  | c :: cs =>
    if c = sep then [] :: listSplit sep cs
    else
      match listSplit sep cs with
      | [] => [[c]]
      | g :: gs => (c :: g) :: gs

/-- The slash-separated components of a path string. -/
def pathComps (p : String) : List String :=
  (listSplit '/' p.data).map fun l => ⟨l⟩

/-- Element processing of Go `path.Clean`, with the output stack kept in
reverse order: empty and `.` components are dropped, `..` pops the
previous component (kept for a relative path with nothing to pop, dropped
at the root), anything else is pushed. -/
def cleanStackRev (rooted : Bool) : List String → List String → List String
  | stack, [] => stack
  | stack, e :: rest =>
    if e = "" ∨ e = "." then cleanStackRev rooted stack rest
    else if e = ".." then
      match stack with
      | [] => cleanStackRev rooted (if rooted then [] else [".."]) rest
      | top :: s2 =>
        if top = ".." then cleanStackRev rooted (".." :: top :: s2) rest
        else cleanStackRev rooted s2 rest
    else cleanStackRev rooted (e :: stack) rest

/-- Join path components with slashes (no cleaning). -/
def joinComps : List String → String
  | [] => ""
  | [x] => x
  | x :: xs => x ++ "/" ++ joinComps xs

/-- Whether a string starts with a given character. -/
def startsWithChar (s : String) (c : Char) : Bool :=
  match s.data with
  | [] => false
  | a :: _ => a = c

/-- Go `path.IsAbs`. -/
def pathIsAbs (p : String) : Bool := startsWithChar p '/'

/-- Go `path.Clean`. -/
def pathClean (p : String) : String :=
  if p = "" then "."
  else
    let rooted := pathIsAbs p
    let stack := (cleanStackRev rooted [] (pathComps p)).reverse
    if rooted then "/" ++ joinComps stack
    else if stack = [] then "." else joinComps stack

/-- Go `path.Join` for two elements: join the non-empty elements with a
slash, then clean; all-empty input yields the empty string. -/
def pathJoin (a b : String) : String :=
  if a = "" ∧ b = "" then ""
  else if a = "" then pathClean b
  else if b = "" then pathClean a
  else pathClean (a ++ "/" ++ b)

/-- Reversed-extension helper: scanning the reversed character list of a
path, collect up to and including the first dot; a slash or the end of the
string before any dot means there is no extension. -/
def extRev : List Char → List Char
  | [] => []
  | c :: rest =>
    if c = '/' then []
    else if c = '.' then [c]
    else
      match extRev rest with
      | [] => []
      | e => c :: e

/-- Go `filepath.Ext`: the suffix of the final element starting at its
final dot, empty when the final element has no dot. -/
def goExt (p : String) : String := ⟨(extRev p.data.reverse).reverse⟩

/-- Go `filepath.Base`: empty path gives `.`; otherwise trailing slashes
are stripped and the part after the final slash is returned (`/` when
nothing remains). -/
def goBase (p : String) : String :=
  if p = "" then "."
  else
    let r := p.data.reverse.dropWhile fun c => c = '/'
    if r = [] then "/"
    else ⟨(r.takeWhile fun c => ¬ c = '/').reverse⟩

/-- Go `filepath.Dir`: everything up to and including the final slash,
cleaned (`.` when there is no slash). -/
def goDir (p : String) : String :=
  pathClean ⟨((p.data.reverse.dropWhile fun c => ¬ c = '/').reverse)⟩

/-- Go `strings.TrimSuffix`. -/
def goTrimSuffix (s suf : String) : String :=
  if suf.data.reverse.isPrefixOf s.data.reverse then
    ⟨(s.data.reverse.drop suf.data.length).reverse⟩
  else s

/-- Go `strings.HasPrefix(s, ".")`, the hidden-entry test of the browser. -/
def startsWithDot (s : String) : Bool := startsWithChar s '.'

/-- Whether a path exists on the local filesystem. -/
def fsExists (fs : List String) (p : String) : Bool := fs.contains p

/-- The candidate built by `fmt.Sprintf("%s (%d)%s", name, counter, ext)`
joined onto the directory. -/
def uniqueCandidate (dir name ext : String) (counter : Nat) : String :=
  pathJoin dir (name ++ " (" ++ natToStr counter ++ ")" ++ ext)

/-- The probing loop of `getUniqueFilePath`, fuelled. -/
def uniqueLoop (fs : List String) (dir name ext : String) : Nat → Nat → Option String
  | 0, _ => none
  | fuel + 1, counter =>
    let newPath := uniqueCandidate dir name ext counter
    if fsExists fs newPath then uniqueLoop fs dir name ext fuel (counter + 1)
    else some newPath

/-- `getUniqueFilePath` of sftp_browser.go: return the original path when
nothing exists there, else probe `name (1)ext`, `name (2)ext`, … and
return the first candidate that does not exist. -/
def getUniqueFilePath (fs : List String) (originalPath : String) : String :=
  if ¬ fsExists fs originalPath then originalPath
  else
    let dir := goDir originalPath
    let ext := goExt originalPath
    let name := goTrimSuffix (goBase originalPath) ext
    (uniqueLoop fs dir name ext (fs.length + 1) 1).getD originalPath

/-- The k-th candidate destination for a download of `p`, as the spec
describes it: `base (k).ext` in the directory of `p`. -/
def candPath (p : String) (k : Nat) : String :=
  uniqueCandidate (goDir p) (goTrimSuffix (goBase p) (goExt p)) (goExt p) k

/-- The file-name component of the k-th candidate. -/
def candComp (name ext : String) (k : Nat) : String :=
  name ++ " (" ++ natToStr k ++ ")" ++ ext

/-- `config.Connection`. -/
structure Connection where
  ID : String
  Label : String
  Icon : String
  Host : String
  Port : Int
  Username : String
  AuthType : String
  CredentialID : String
  KeyPath : String
deriving DecidableEq

/-- `config.Credential` (its secret lives only in the keyring). -/
structure Credential where
  ID : String
  Label : String
  Username : String
deriving DecidableEq

/-- `config.Settings`. -/
structure Settings where
  Editor : String
  Theme : String
  ShowHiddenFiles : String
  ConfirmDelete : String
  DefaultPort : Int
deriving DecidableEq

/-- `config.Config`. -/
structure Config where
  Version : Int
  Settings : Settings
  Connections : List Connection
  Credentials : List Credential
deriving DecidableEq

/-- Writes issued against the OS keyring and the on-disk config file.  The
router functions return the list of writes they attempt, in order. -/
inductive StoreEffect where
  | keyringSet (key password : String)
  | keyringDelete (key : String)
  | save (cfg : Config)
deriving DecidableEq

/-- `keyring.buildKey`: keys have the form `conn-{id}` or `cred-{id}`
(braces standing for the interpolated id). -/
def buildKey (keyType keyId : String) : String := keyType ++ "-" ++ keyId

/-- The loop of `Config.DeleteConnection`: remove the first connection
with the given id, `none` when no connection matches. -/
def removeFirstConnection : List Connection → String → Option (List Connection)
  | [], _ => none
  | c :: rest, id =>
    if c.ID = id then some rest
    else
      match removeFirstConnection rest id with
      | none => none
      | some l => some (c :: l)

/-- The loop of `Config.UpdateConnection`: replace the first connection
with the updated record's id. -/
def replaceFirstConnection : List Connection → Connection → Option (List Connection)
  | [], _ => none
  | c :: rest, upd =>
    if c.ID = upd.ID then some (upd :: rest)
    else
      match replaceFirstConnection rest upd with
      | none => none
      | some l => some (c :: l)

/-- `Config.DeleteConnection`: the matching record is removed from the
in-memory slice and then `Save` runs; `saveOk` is the outcome of the disk
write.  Returns the (possibly mutated) config, the error, and the writes
attempted. -/
def Config.deleteConnection (cfg : Config) (id : String) (saveOk : Bool) :
    Config × Option String × List StoreEffect :=
  match removeFirstConnection cfg.Connections id with
  | none => (cfg, some ("connection with ID " ++ id ++ " not found"), [])
  | some conns =>
    let cfg2 := { cfg with Connections := conns }
    (cfg2, if saveOk then none else some "save failed", [StoreEffect.save cfg2])

/-- `Config.AddConnection`: a fresh id (`newId`, standing for
`uuid.New().String()`) is assigned when the record has none, the record is
appended, and `Save` runs. -/
def Config.addConnection (cfg : Config) (conn : Connection) (newId : String) (saveOk : Bool) :
    Config × Option String × List StoreEffect :=
  let conn2 := if conn.ID = "" then { conn with ID := newId } else conn
  let cfg2 := { cfg with Connections := cfg.Connections ++ [conn2] }
  (cfg2, if saveOk then none else some "save failed", [StoreEffect.save cfg2])

/-- `Config.UpdateConnection`. -/
def Config.updateConnection (cfg : Config) (upd : Connection) (saveOk : Bool) :
    Config × Option String × List StoreEffect :=
  match replaceFirstConnection cfg.Connections upd with
  | none => (cfg, some ("connection with ID " ++ upd.ID ++ " not found"), [])
  | some conns =>
    let cfg2 := { cfg with Connections := conns }
    (cfg2, if saveOk then none else some "save failed", [StoreEffect.save cfg2])

/-- `tui.ViewState`. -/
inductive ViewState where
  | ViewConnections
  | ViewConnectionForm
  | ViewSelectionMenu
  | ViewCredentials
  | ViewSSH
  | ViewSFTP
deriving DecidableEq

/-- `views.FormMode`. -/
inductive FormMode where
  | FormModeAdd
  | FormModeEdit
deriving DecidableEq

/-- The accessor results of the connection form consumed by
`handleFormSubmit`: `GetConnection()`, `GetPassword()`, `GetMode()`. -/
structure FormData where
  connection : Connection
  password : String
  mode : FormMode
deriving DecidableEq

/-- The router state consumed by the handlers under verification
(rendering-only fields of `tui.Model` are omitted). -/
structure TuiModel where
  config : Config
  state : ViewState
  selectedIndex : Int
  err : Option String
  form : Option FormData
deriving DecidableEq

/-- Outcomes of the external stores during one router call: the keyring
write, the config-file write, and the `config.Load()` re-read. -/
structure TuiWorld where
  keyringOk : Bool
  saveOk : Bool
  newId : String
  loadResult : Except String Config

/-- Go slice indexing `l[i]` on an int index: `none` models the panic on
an out-of-range or negative index. -/
def listGetI {α : Type} (l : List α) (i : Int) : Option α :=
  if i < 0 then none else l.get? i.toNat

/-- `Model.handleFormSubmit`: write the password to the keyring when one
was entered (aborting on failure), then add or update the record in the
config store, then reload the config. -/
def handleFormSubmit (w : TuiWorld) (m : TuiModel) : TuiModel × List StoreEffect :=
  match m.form with
  | none => (m, [])
  | some form =>
    let conn := form.connection
    let password := form.password
    let kEffs :=
      if password = "" then []
      else [StoreEffect.keyringSet (buildKey "conn" conn.ID) password]
    if password ≠ "" ∧ w.keyringOk = false then
      ({ m with err := some "failed to save password" }, kEffs)
    else
      let r :=
        if form.mode = FormMode.FormModeAdd then m.config.addConnection conn w.newId w.saveOk
        else m.config.updateConnection conn w.saveOk
      match r.2.1 with
      | some e =>
        ({ m with config := r.1, err := some ("failed to save connection: " ++ e) },
          kEffs ++ r.2.2)
      | none =>
        match w.loadResult with
        | .error e =>
          ({ m with config := r.1, err := some ("failed to reload config: " ++ e) },
            kEffs ++ r.2.2)
        | .ok cfg2 =>
          let m2 := { m with config := cfg2, form := none, state := ViewState.ViewConnections }
          ({ m2 with err := none }, kEffs ++ r.2.2)

/-- The confirmation callback registered by `handleDeleteConnection`, run
when the modal resolves to confirmed: best-effort keyring delete, config
delete (error surfaced), then the selection re-clamp. -/
def confirmDeleteConnection (w : TuiWorld) (m : TuiModel) :
    Option (TuiModel × List StoreEffect) :=
  match listGetI m.config.Connections m.selectedIndex with
  | none => none
  | some conn =>
    let kEff := [StoreEffect.keyringDelete (buildKey "conn" conn.ID)]
    let r := m.config.deleteConnection conn.ID w.saveOk
    match r.2.1 with
    | some e =>
      some ({ m with config := r.1, err := some ("failed to delete connection: " ++ e) },
        kEff ++ r.2.2)
    | none =>
      let m1 := { m with config := r.1 }
      let m2 :=
        if m1.selectedIndex ≥ (r.1.Connections.length : Int) ∧ m1.selectedIndex > (0 : Int) then
          { m1 with selectedIndex := m1.selectedIndex - 1 }
        else m1
      some ({ m2 with err := none }, kEff ++ r.2.2)

/-- `sftp.FileInfo` (the `Mode`/`ModTime` fields are not consumed by any
modelled logic and are omitted). -/
structure FileInfo where
  Name : String
  Size : Int
  IsDir : Bool
  Permissions : String
deriving DecidableEq

/-- Responses of the external collaborators during one event: the remote
SFTP server, the clipboard, and the local filesystem. -/
structure SFTPWorld where
  readDir : String → Except String (List FileInfo)
  stat : String → Except String FileInfo
  removeDirErr : String → Option String
  removeFileErr : String → Option String
  clipboardErr : Option String
  userHome : Except String String
  mkdirOk : Bool
  localFS : List String
  downloadErr : String → String → Option String

/-- `sftp.Client`: `connected` is `sftpClient != nil`. -/
structure Client where
  connected : Bool
  currentDir : String
deriving DecidableEq

/-- Removal operations the client issues against the remote server. -/
inductive RemoteEffect where
  | removeDirectory (path : String)
  | removeFile (path : String)
deriving DecidableEq

/-- `Client.ChangeDir`: stat the target; fail (leaving `currentDir`
untouched) when the stat fails or the target is not a directory; otherwise
set `currentDir` to the cleaned absolute target, or the cleaned join with
the previous directory for a relative target. -/
def Client.changeDir (c : Client) (w : SFTPWorld) (dirPath : String) :
    Client × Option String :=
  if ¬ c.connected then (c, some "not connected")
  else
    match w.stat dirPath with
    | .error e => (c, some ("directory not found: " ++ e))
    | .ok info =>
      if ¬ info.IsDir then (c, some (dirPath ++ " is not a directory"))
      else if pathIsAbs dirPath then ({ c with currentDir := pathClean dirPath }, none)
      else ({ c with currentDir := pathClean (pathJoin c.currentDir dirPath) }, none)

/-- `Client.GetWorkingDir`. -/
def Client.getWorkingDir (c : Client) : String := c.currentDir

/-- `Client.Delete`: stat the item and dispatch `RemoveDirectory` versus
`Remove` on the stat result's is-directory bit. -/
def Client.delete (c : Client) (w : SFTPWorld) (itemPath : String) :
    Option String × List RemoteEffect :=
  if ¬ c.connected then (some "not connected", [])
  else
    match w.stat itemPath with
    | .error e => (some ("failed to stat item: " ++ e), [])
    | .ok info =>
      if info.IsDir then
        match w.removeDirErr itemPath with
        | some e => (some ("failed to delete: " ++ e), [RemoteEffect.removeDirectory itemPath])
        | none => (none, [RemoteEffect.removeDirectory itemPath])
      else
        match w.removeFileErr itemPath with
        | some e => (some ("failed to delete: " ++ e), [RemoteEffect.removeFile itemPath])
        | none => (none, [RemoteEffect.removeFile itemPath])

/-- `Client.ListDir`. -/
def Client.listDir (c : Client) (w : SFTPWorld) (dirPath : String) :
    Except String (List FileInfo) :=
  if ¬ c.connected then .error "not connected"
  else
    match w.readDir dirPath with
    | .error e => .error ("failed to read directory: " ++ e)
    | .ok entries => .ok entries

/-- `Client.DownloadFile`. -/
def Client.downloadFile (c : Client) (w : SFTPWorld) (remotePath localPath : String) :
    Option String :=
  if ¬ c.connected then some "not connected" else w.downloadErr remotePath localPath

/-- `views.SFTPBrowserState`. -/
inductive SFTPBrowserState where
  | BrowsingState
  | GoToPathState
  | CreateFileState
  | CreateDirState
  | RenameState
  | DeleteConfirmState
deriving DecidableEq

/-- `views.SFTPBrowserModel`; the two text inputs are modelled by their
string values (cursor and focus state are rendering concerns), and `width`
is omitted (it only sizes rendering). -/
structure SFTPBrowserModel where
  client : Client
  files : List FileInfo
  selectedIndex : Int
  scrollOffset : Int
  currentPath : String
  state : SFTPBrowserState
  pathInput : String
  nameInput : String
  showHidden : Bool
  err : Option String
  successMsg : String
  height : Int
  fileToEdit : String
deriving DecidableEq

/-- `SFTPBrowserModel.loadCurrentDirectory`: list the current path, filter
hidden entries unless the toggle is on, reset an out-of-bounds selection
to 0, reset the scroll offset. -/
def loadCurrentDirectory (w : SFTPWorld) (m : SFTPBrowserModel) : SFTPBrowserModel :=
  match m.client.listDir w m.currentPath with
  | .error e => { m with err := some e }
  | .ok files =>
    let files2 :=
      if ¬ m.showHidden then files.filter (fun f => ¬ startsWithDot f.Name) else files
    let m2 := { m with files := files2, err := none }
    let m3 :=
      if m2.selectedIndex ≥ (m2.files.length : Int) then { m2 with selectedIndex := 0 } else m2
    { m3 with scrollOffset := 0 }

/-- `SFTPBrowserModel.getVisibleFileCount`. -/
def getVisibleFileCount (m : SFTPBrowserModel) : Int :=
  let reservedLines : Int := if m.err ≠ none ∨ m.successMsg ≠ "" then 14 else 12
  let availableLines := m.height - reservedLines
  if availableLines < 1 then 1 else availableLines

/-- `SFTPBrowserModel.adjustScroll`. -/
def adjustScroll (m : SFTPBrowserModel) : SFTPBrowserModel :=
  let visibleLines := getVisibleFileCount m
  if visibleLines ≤ 0 then m
  else
    let m1 :=
      if m.selectedIndex < m.scrollOffset then { m with scrollOffset := m.selectedIndex } else m
    if m1.selectedIndex ≥ m1.scrollOffset + visibleLines then
      { m1 with scrollOffset := m1.selectedIndex - visibleLines + 1 }
    else m1

/-- The unconditional message clear at the end of the `tea.KeyMsg` branch
of `updateBrowsing` (commented `Clear messages after showing`). -/
def clearMsgs (m : SFTPBrowserModel) : SFTPBrowserModel :=
  { m with err := none, successMsg := "" }

/-- The `tea.Cmd` values `updateBrowsing` returns. -/
inductive TeaCmd where
  | noCmd
  | blink
  | quitCmd
deriving DecidableEq

/-- `SFTPBrowserModel.goToParentDirectory`. -/
def goToParentDirectory (w : SFTPWorld) (m : SFTPBrowserModel) : SFTPBrowserModel :=
  if m.currentPath = "/" then m
  else
    let parentPath := goDir m.currentPath
    let r := m.client.changeDir w parentPath
    match r.2 with
    | none => loadCurrentDirectory w { m with client := r.1, currentPath := r.1.getWorkingDir }
    | some e => { m with client := r.1, err := some e }

/-- `SFTPBrowserModel.enterSelected`. -/
def enterSelected (w : SFTPWorld) (m : SFTPBrowserModel) : Option SFTPBrowserModel :=
  if m.files.length = 0 ∨ m.selectedIndex ≥ (m.files.length : Int) then some m
  else
    match listGetI m.files m.selectedIndex with
    | none => none
    | some sel =>
      if sel.IsDir then
        let newPath := pathJoin m.currentPath sel.Name
        let r := m.client.changeDir w newPath
        match r.2 with
        | none =>
          some (loadCurrentDirectory w { m with client := r.1, currentPath := r.1.getWorkingDir })
        | some e => some { m with client := r.1, err := some e }
      else some m

/-- `SFTPBrowserModel.copyToClipboard`. -/
def copyToClipboard (w : SFTPWorld) (m : SFTPBrowserModel) : SFTPBrowserModel :=
  match w.clipboardErr with
  | some e => { m with err := some ("failed to copy to clipboard: " ++ e) }
  | none => m

/-- `SFTPBrowserModel.downloadSelectedFile`. -/
def downloadSelectedFile (w : SFTPWorld) (m : SFTPBrowserModel) : Option SFTPBrowserModel :=
  if m.selectedIndex ≥ (m.files.length : Int) then some m
  else
    match listGetI m.files m.selectedIndex with
    | none => none
    | some file =>
      let remotePath := pathJoin m.currentPath file.Name
      match w.userHome with
      | .error e => some { m with err := some ("failed to get home directory: " ++ e) }
      | .ok homeDir =>
        let downloadsDir := pathJoin homeDir "Downloads"
        if ¬ w.mkdirOk then some { m with err := some "failed to create Downloads directory" }
        else
          let localPath := pathJoin downloadsDir file.Name
          let localPath2 := getUniqueFilePath w.localFS localPath
          match m.client.downloadFile w remotePath localPath2 with
          | some e => some { m with err := some ("download failed: " ++ e) }
          | none => some { m with successMsg := "Downloaded: " ++ goBase localPath2 }

/-- `SFTPBrowserModel.updateBrowsing` on a key message, with the cases in
the source's order; the final `else` is the fall-through of the `switch`,
which (like every case that does not return early) runs the unconditional
message clear. -/
def updateBrowsing (w : SFTPWorld) (m : SFTPBrowserModel) (k : String) :
    Option (SFTPBrowserModel × TeaCmd) :=
  if k = "k" ∨ k = "up" then
    some (clearMsgs (if m.selectedIndex > 0 then
      adjustScroll { m with selectedIndex := m.selectedIndex - 1 } else m), TeaCmd.noCmd)
  else if k = "j" ∨ k = "down" then
    some (clearMsgs (if m.selectedIndex < (m.files.length : Int) - 1 then
      adjustScroll { m with selectedIndex := m.selectedIndex + 1 } else m), TeaCmd.noCmd)
  else if k = "ctrl+u" then
    let visibleCount := getVisibleFileCount m
    let jump := max 1 (visibleCount / 2)
    some (clearMsgs (adjustScroll { m with selectedIndex := max 0 (m.selectedIndex - jump) }),
      TeaCmd.noCmd)
  else if k = "ctrl+d" then
    let visibleCount := getVisibleFileCount m
    let jump := max 1 (visibleCount / 2)
    let s1 := m.selectedIndex + jump
    let s2 := if s1 ≥ (m.files.length : Int) then (m.files.length : Int) - 1 else s1
    some (clearMsgs (adjustScroll { m with selectedIndex := s2 }), TeaCmd.noCmd)
  else if k = "G" then
    some (clearMsgs (if (0 : Int) < (m.files.length : Int) then
      adjustScroll { m with selectedIndex := (m.files.length : Int) - 1 } else m), TeaCmd.noCmd)
  else if k = "g" ∨ k = "tab" then
    some ({ m with state := SFTPBrowserState.GoToPathState, pathInput := m.currentPath },
      TeaCmd.blink)
  else if k = "h" ∨ k = "left" then
    some (clearMsgs (goToParentDirectory w m), TeaCmd.noCmd)
  else if k = "l" ∨ k = "right" ∨ k = "enter" then
    match enterSelected w m with
    | none => none
    | some m2 => some (clearMsgs m2, TeaCmd.noCmd)
  else if k = "~" then
    some (clearMsgs (loadCurrentDirectory w { m with currentPath := "~" }), TeaCmd.noCmd)
  else if k = "." then
    some (clearMsgs (loadCurrentDirectory w { m with showHidden := ¬ m.showHidden }),
      TeaCmd.noCmd)
  else if k = "n" then
    some ({ m with state := SFTPBrowserState.CreateFileState, nameInput := "" }, TeaCmd.blink)
  else if k = "N" then
    some ({ m with state := SFTPBrowserState.CreateDirState, nameInput := "" }, TeaCmd.blink)
  else if k = "d" then
    if 0 < m.files.length ∧ m.selectedIndex < (m.files.length : Int) then
      some ({ m with state := SFTPBrowserState.DeleteConfirmState }, TeaCmd.noCmd)
    else some (clearMsgs m, TeaCmd.noCmd)
  else if k = "r" then
    if 0 < m.files.length ∧ m.selectedIndex < (m.files.length : Int) then
      match listGetI m.files m.selectedIndex with
      | none => none
      | some f =>
        some ({ m with state := SFTPBrowserState.RenameState, nameInput := f.Name },
          TeaCmd.blink)
    else some (clearMsgs m, TeaCmd.noCmd)
  else if k = "y" then
    if 0 < m.files.length ∧ m.selectedIndex < (m.files.length : Int) then
      match listGetI m.files m.selectedIndex with
      | none => none
      | some _ =>
        let m1 := copyToClipboard w m
        some (clearMsgs { m1 with successMsg := "Path copied to clipboard" }, TeaCmd.noCmd)
    else some (clearMsgs m, TeaCmd.noCmd)
  else if k = "e" then
    if 0 < m.files.length ∧ m.selectedIndex < (m.files.length : Int) then
      match listGetI m.files m.selectedIndex with
      | none => none
      | some f =>
        if ¬ f.IsDir then
          some ({ m with fileToEdit := pathJoin m.currentPath f.Name }, TeaCmd.quitCmd)
        else some (clearMsgs m, TeaCmd.noCmd)
    else some (clearMsgs m, TeaCmd.noCmd)
  else if k = "D" then
    if 0 < m.files.length ∧ m.selectedIndex < (m.files.length : Int) then
      match listGetI m.files m.selectedIndex with
      | none => none
      | some f =>
        if ¬ f.IsDir then
          match downloadSelectedFile w m with
          | none => none
          | some m2 => some (clearMsgs m2, TeaCmd.noCmd)
        else some (clearMsgs { m with err := some "cannot download directories" }, TeaCmd.noCmd)
    else some (clearMsgs m, TeaCmd.noCmd)
  else if k = "q" ∨ k = "ctrl+c" then
    some (m, TeaCmd.quitCmd)
  else
    some (clearMsgs m, TeaCmd.noCmd)

/-- `SFTPBrowserModel.updateDeleteConfirm`: `y`/`Y` performs the delete
and reloads, `n`/`N`/`esc` cancels, anything else falls through the
`switch` and leaves the model as is. -/
def updateDeleteConfirm (w : SFTPWorld) (m : SFTPBrowserModel) (k : String) :
    Option (SFTPBrowserModel × List RemoteEffect) :=
  if k = "y" ∨ k = "Y" then
    if m.selectedIndex < (m.files.length : Int) then
      match listGetI m.files m.selectedIndex with
      | none => none
      | some file =>
        let itemPath := pathJoin m.currentPath file.Name
        let r := m.client.delete w itemPath
        match r.1 with
        | some e => some ({ m with err := some e, state := SFTPBrowserState.BrowsingState }, r.2)
        | none =>
          let m2 := loadCurrentDirectory w { m with successMsg := "Deleted: " ++ file.Name }
          some ({ m2 with state := SFTPBrowserState.BrowsingState }, r.2)
    else some ({ m with state := SFTPBrowserState.BrowsingState }, [])
  else if k = "n" ∨ k = "N" ∨ k = "esc" then
    some ({ m with state := SFTPBrowserState.BrowsingState }, [])
  else some (m, [])

/-- `views.ConfirmationModalModel`: `selected` is 0 for Yes, 1 for No. -/
structure ConfirmationModalModel where
  title : String
  message : String
  selected : Int
  confirmed : Bool
  cancelled : Bool
deriving DecidableEq

/-- `views.NewConfirmationModal`: the selection defaults to No. -/
def NewConfirmationModal (title message : String) : ConfirmationModalModel :=
  { title := title, message := message, selected := 1, confirmed := false, cancelled := false }

/-- `ConfirmationModalModel.Update` on a key message. -/
def ConfirmationModalModel.update (m : ConfirmationModalModel) (k : String) :
    ConfirmationModalModel :=
  if k = "esc" then { m with cancelled := true }
  else if k = "left" ∨ k = "h" then
    if m.selected > 0 then { m with selected := m.selected - 1 } else m
  else if k = "right" ∨ k = "l" then
    if m.selected < 1 then { m with selected := m.selected + 1 } else m
  else if k = "enter" then
    if m.selected = 0 then { m with confirmed := true } else { m with cancelled := true }
  else m

/-- The selection-index invariant of the spec for the file browser:
`0 ≤ index < length` when the list is non-empty, `index = 0` when it is
empty. -/
def browserIndexInv (m : SFTPBrowserModel) : Prop :=
  (m.files.length = 0 → m.selectedIndex = 0) ∧
  (0 < m.files.length → 0 ≤ m.selectedIndex ∧ m.selectedIndex < (m.files.length : Int))

/-- The selection-index invariant for the connection list. -/
def connIndexInv (m : TuiModel) : Prop :=
  (m.config.Connections.length = 0 → m.selectedIndex = 0) ∧
  (0 < m.config.Connections.length →
    0 ≤ m.selectedIndex ∧ m.selectedIndex < (m.config.Connections.length : Int))

/-- The viewport-scrolling invariant of the spec:
`scrollOffset ≤ selection < scrollOffset + visibleCount`. -/
def viewportInv (m : SFTPBrowserModel) : Prop :=
  m.scrollOffset ≤ m.selectedIndex ∧
  m.selectedIndex < m.scrollOffset + getVisibleFileCount m

instance (m : SFTPBrowserModel) : Decidable (browserIndexInv m) := by
  unfold browserIndexInv; infer_instance

instance (m : TuiModel) : Decidable (connIndexInv m) := by
  unfold connIndexInv; infer_instance

instance (m : SFTPBrowserModel) : Decidable (viewportInv m) := by
  unfold viewportInv; infer_instance

/-! ### Concrete fixtures used by witnesses and counterexamples -/
def sampleSettings : Settings := ⟨"nvim", "default", "false", "true", 22⟩

def connA : Connection := ⟨"ida", "alpha", "", "h1", 22, "u", "password", "", ""⟩

def connB : Connection := ⟨"idb", "beta", "", "h2", 22, "u", "password", "", ""⟩

def cfgA : Config := ⟨1, sampleSettings, [connA], []⟩

def cfgAB : Config := ⟨1, sampleSettings, [connA, connB], []⟩

/-- A store world whose config-file write fails. -/
def wSaveFail : TuiWorld := ⟨true, false, "newid", Except.error "load skipped"⟩

/-- A store world whose keyring write fails. -/
def wKeyFail : TuiWorld := ⟨false, true, "newid", Except.ok cfgA⟩

def mDelA : TuiModel := ⟨cfgA, ViewState.ViewConnections, 0, none, none⟩

def mDelB : TuiModel := ⟨cfgAB, ViewState.ViewConnections, 1, none, none⟩

def formAdd : FormData := ⟨connA, "pw", FormMode.FormModeAdd⟩

def mForm : TuiModel := ⟨cfgA, ViewState.ViewConnectionForm, 0, none, some formAdd⟩

def fileNotes : FileInfo := ⟨"notes.txt", 5, false, "-rw-r--r--"⟩

def fileBashrc : FileInfo := ⟨".bashrc", 10, false, "-rw-r--r--"⟩

/-- A remote world: `/home/u` lists a hidden and a visible file, every
other path fails to list; stats succeed; removals, clipboard, the local
side all succeed. -/
def wHome : SFTPWorld :=
  ⟨fun p => if p = "/home/u" then Except.ok [fileBashrc, fileNotes] else Except.error "failed",
    fun _ => Except.ok fileNotes,
    fun _ => none, fun _ => none, none, Except.ok "/h", true, [], fun _ _ => none⟩

def browserBase : SFTPBrowserModel :=
  ⟨⟨true, "/home/u"⟩, [fileNotes], 0, 0, "/home/u", SFTPBrowserState.BrowsingState,
    "", "", false, none, "", 30, ""⟩

def mDelConfirm : SFTPBrowserModel :=
  { browserBase with state := SFTPBrowserState.DeleteConfirmState }

def dirDocs : FileInfo := ⟨"docs", 0, true, "drwxr-xr-x"⟩

/-- A remote world whose stats report a directory. -/
def wDirs : SFTPWorld := { wHome with stat := fun _ => Except.ok dirDocs }

/-- A store world where every store operation succeeds. -/
def wSaveOk : TuiWorld := ⟨true, true, "newid", Except.ok cfgA⟩

/-! ### Theorems -/

theorem digitsRevToNat_natDigitsRev (fuel n : Nat) (h : n ≤ fuel) :
    digitsRevToNat (natDigitsRev fuel n) = n := by
  induction fuel generalizing n with
  | zero => interval_cases n; simp [natDigitsRev, digitsRevToNat]
  | succ fuel ih =>
    by_cases hn : n = 0
    · simp [natDigitsRev, hn, digitsRevToNat]
    · have hdiv : n / 10 ≤ fuel := by
        have : n / 10 < n := Nat.div_lt_self (Nat.pos_of_ne_zero hn) (by omega)
        omega
      simp only [natDigitsRev, hn, if_false, digitsRevToNat, ih _ hdiv]
      omega

theorem natDigitsRev_lt_ten (fuel n : Nat) :
    ∀ d ∈ natDigitsRev fuel n, d < 10 := by
  induction fuel generalizing n with
  | zero => simp [natDigitsRev]
  | succ fuel ih =>
    intro d hd
    by_cases hn : n = 0
    · simp [natDigitsRev, hn] at hd
    · simp only [natDigitsRev, hn, if_false, List.mem_cons] at hd
      rcases hd with h | h
      · omega
      · exact ih _ d h

theorem digitChar_toNat (d : Nat) (h : d < 10) : (digitChar d).toNat - 48 = d := by
  interval_cases d <;> decide

theorem strDecode_natToStr (n : Nat) : strDecode (natToStr n) = n := by
  by_cases hn : n = 0
  · subst hn; decide
  · have hmap :
        ((((natDigitsRev n n).reverse).map digitChar).reverse.map
            (fun c => c.toNat - 48)) = natDigitsRev n n := by
      simp only [List.map_reverse, List.reverse_reverse, List.map_map]
      have : ∀ d ∈ natDigitsRev n n, (digitChar d).toNat - 48 = d := by
        intro d hd
        exact digitChar_toNat d (natDigitsRev_lt_ten n n d hd)
      calc (natDigitsRev n n).map ((fun c => c.toNat - 48) ∘ digitChar)
          = (natDigitsRev n n).map id := List.map_congr_left (by simpa using this)
        _ = natDigitsRev n n := List.map_id _
    simp only [natToStr, hn, if_false, strDecode, hmap]
    exact digitsRevToNat_natDigitsRev n n le_rfl

theorem natToStr_injective : Function.Injective natToStr :=
  Function.LeftInverse.injective strDecode_natToStr

/-! Support lemmas: `pathJoin dir c` for a slash-free component `c` that is
not `""`, `.` or `..` appends `c` verbatim after a prefix that depends only
on `dir`; hence distinct counters give distinct candidate paths, and over a
finite filesystem the probing loop of `getUniqueFilePath` finds the first
free candidate within `length + 1` probes. -/
theorem listSplit_ne_nil (sep : Char) (l : List Char) : listSplit sep l ≠ [] := by
  cases l with
  | nil => simp [listSplit]
  | cons c cs =>
    simp only [listSplit]
    split
    · simp
    · split
      · simp
      · simp

theorem listSplit_append_sep (sep : Char) (xs ys : List Char) :
    listSplit sep (xs ++ sep :: ys) = listSplit sep xs ++ listSplit sep ys := by
  induction xs with
  | nil => simp [listSplit]
  | cons c cs ih =>
    by_cases hc : c = sep
    · simp [listSplit, hc, ih]
    · rcases h : listSplit sep cs with _ | ⟨g, gs⟩
      · exact absurd h (listSplit_ne_nil sep cs)
      · have e2 : listSplit sep (cs ++ sep :: ys) = g :: (gs ++ listSplit sep ys) := by
          rw [ih, h]; rfl
        simp only [List.cons_append, listSplit, hc, if_false, List.append_eq, e2, h]

theorem listSplit_no_sep (sep : Char) (l : List Char) (h : sep ∉ l) :
    listSplit sep l = [l] := by
  induction l with
  | nil => rfl
  | cons c cs ih =>
    simp only [List.mem_cons, not_or] at h
    simp [listSplit, Ne.symm h.1, ih h.2]

theorem pathComps_append (a b : String) :
    pathComps (a ++ "/" ++ b) = pathComps a ++ pathComps b := by
  have : (a ++ "/" ++ b).data = a.data ++ '/' :: b.data := by
    simp [String.data_append]
  simp [pathComps, this, listSplit_append_sep]

theorem pathComps_single (c : String) (h : '/' ∉ c.data) : pathComps c = [c] := by
  simp [pathComps, listSplit_no_sep '/' c.data h]

theorem cleanStackRev_push (rooted : Bool) (st cs : List String) (c : String)
    (h0 : c ≠ "") (h1 : c ≠ ".") (h2 : c ≠ "..") :
    cleanStackRev rooted st (cs ++ [c]) = c :: cleanStackRev rooted st cs := by
  induction cs generalizing st with
  | nil => simp [cleanStackRev, h0, h1, h2]
  | cons e rest ih =>
    simp only [List.cons_append, cleanStackRev]
    by_cases he : e = "" ∨ e = "."
    · simp [he, ih]
    · simp only [he, if_false]
      by_cases hdd : e = ".."
      · simp only [hdd, if_pos rfl]
        cases st with
        | nil => simp [ih]
        | cons top s2 =>
          by_cases ht : top = ".." <;> simp [ht, ih]
      · simp [hdd, ih]

theorem joinComps_snoc (xs : List String) (c : String) :
    joinComps (xs ++ [c]) = (if xs = [] then "" else joinComps xs ++ "/") ++ c := by
  induction xs with
  | nil => simp [joinComps]
  | cons x rest ih =>
    cases rest with
    | nil => simp [joinComps]
    | cons y ys =>
      have ih2 : joinComps (y :: (ys ++ [c])) = joinComps (y :: ys) ++ "/" ++ c := by
        simpa using ih
      show x ++ "/" ++ joinComps (y :: (ys ++ [c])) =
        (if (x :: y :: ys : List String) = [] then "" else joinComps (x :: y :: ys) ++ "/") ++ c
      rw [ih2]
      simp [joinComps, String.append_assoc]

theorem startsWithChar_append_left (a b : String) (c : Char) (h : a ≠ "") :
    startsWithChar (a ++ b) c = startsWithChar a c := by
  have : a.data ≠ [] := fun hd => h (by cases a; simp_all)
  rcases hd : a.data with _ | ⟨x, xs⟩
  · exact absurd hd this
  · simp [startsWithChar, String.data_append, hd]

theorem pathClean_expand (p : String) (hp : p ≠ "") (R : Bool) (hR : pathIsAbs p = R)
    (L : List String) (hL : cleanStackRev R [] (pathComps p) = L) :
    pathClean p =
      if R then "/" ++ joinComps L.reverse
      else if L.reverse = [] then "." else joinComps L.reverse := by
  subst hR
  subst hL
  simp [pathClean, hp]

theorem pathJoin_regular (a : String) :
    ∃ P : String, ∀ c : String, c ≠ "" → c ≠ "." → c ≠ ".." → '/' ∉ c.data →
      pathJoin a c = P ++ c := by
  by_cases ha : a = ""
  · refine ⟨"", fun c h0 h1 h2 hs => ?_⟩
    have hroot : pathIsAbs c = false := by
      rcases hd : c.data with _ | ⟨x, xs⟩
      · simp [pathIsAbs, startsWithChar, hd]
      · have hx : ¬ x = '/' := fun hx => hs (by rw [hd, hx]; exact List.mem_cons_self _ _)
        simp [pathIsAbs, startsWithChar, hd, hx]
    have hstack : cleanStackRev false [] (pathComps c) = [c] := by
      rw [pathComps_single c hs]
      simp [cleanStackRev, h0, h1, h2]
    subst ha
    rw [pathJoin, if_neg (fun h => h0 h.2), if_pos rfl,
      pathClean_expand c h0 false hroot [c] hstack]
    simp [joinComps]
  · set rooted := pathIsAbs a with hrooted
    set S := cleanStackRev rooted [] (pathComps a) with hS
    refine ⟨(if rooted then "/" else "") ++
      (if S.reverse = [] then "" else joinComps S.reverse ++ "/"),
      fun c h0 h1 h2 hs => ?_⟩
    have hempty : ¬ (a = "" ∧ c = "") := fun h => ha h.1
    have hac : (a ++ "/" ++ c) ≠ "" := by
      intro h
      have hd : (a ++ "/" ++ c).data = [] := by rw [h]
      simp [String.data_append] at hd
    have habs : pathIsAbs (a ++ "/" ++ c) = rooted := by
      rw [hrooted, pathIsAbs, pathIsAbs, String.append_assoc,
        startsWithChar_append_left a ("/" ++ c) '/' ha]
    have hstack : cleanStackRev rooted [] (pathComps (a ++ "/" ++ c)) = c :: S := by
      rw [pathComps_append, pathComps_single c hs,
        cleanStackRev_push rooted [] (pathComps a) c h0 h1 h2, ← hS]
    rw [pathJoin, if_neg hempty, if_neg ha, if_neg h0,
      pathClean_expand _ hac rooted habs (c :: S) hstack]
    simp only [List.reverse_cons]
    have hne : ¬ (S.reverse ++ [c] = []) := by simp
    rw [joinComps_snoc]
    cases rooted with
    | false =>
      simp only [Bool.false_eq_true, if_false, if_neg hne]
      split <;> simp [String.append_assoc]
    | true =>
      simp only [if_pos rfl]
      split <;> simp [String.append_assoc]

theorem strAppendCancelRight {a b c : String} (h : a ++ c = b ++ c) : a = b := by
  apply String.ext
  have hd : a.data ++ c.data = b.data ++ c.data := by
    rw [← String.data_append, ← String.data_append, h]
  exact List.append_cancel_right hd

theorem strAppendCancelLeft {a b c : String} (h : c ++ a = c ++ b) : a = b := by
  apply String.ext
  have hd : c.data ++ a.data = c.data ++ b.data := by
    rw [← String.data_append, ← String.data_append, h]
  exact List.append_cancel_left hd

theorem natToStr_no_slash (n : Nat) : '/' ∉ (natToStr n).data := by
  by_cases hn : n = 0
  · subst hn; decide
  · simp only [natToStr, hn, if_false]
    intro hmem
    simp only [List.mem_map] at hmem
    obtain ⟨d, hd, hchar⟩ := hmem
    have hlt : d < 10 := natDigitsRev_lt_ten n n d (List.mem_reverse.mp hd)
    revert hchar
    interval_cases d <;> decide

theorem candComp_data (name ext : String) (k : Nat) :
    (candComp name ext k).data =
      name.data ++ [' ', '('] ++ (natToStr k).data ++ [')'] ++ ext.data := by
  simp [candComp, String.data_append]

theorem candComp_ne_degenerate (name ext : String) (k : Nat) :
    candComp name ext k ≠ "" ∧ candComp name ext k ≠ "." ∧ candComp name ext k ≠ ".." := by
  have hmem : '(' ∈ (candComp name ext k).data := by
    rw [candComp_data]; simp
  refine ⟨?_, ?_, ?_⟩ <;>
    · intro h
      rw [h] at hmem
      simp at hmem
      try exact hmem
      try omega

theorem candComp_no_slash (name ext : String) (k : Nat)
    (hn : '/' ∉ name.data) (he : '/' ∉ ext.data) :
    '/' ∉ (candComp name ext k).data := by
  rw [candComp_data]
  intro h
  simp only [List.mem_append, List.mem_cons, List.not_mem_nil] at h
  rcases h with ((((h | h) | h) | h) | h)
  · exact hn h
  · rcases h with h | h | h <;> simp_all
  · exact natToStr_no_slash k h
  · rcases h with h | h <;> simp_all
  · exact he h

theorem candComp_inj (name ext : String) {j k : Nat}
    (h : candComp name ext j = candComp name ext k) : j = k := by
  apply natToStr_injective
  have h1 : name ++ " (" ++ natToStr j ++ ")" = name ++ " (" ++ natToStr k ++ ")" :=
    strAppendCancelRight h
  have h2 : name ++ " (" ++ natToStr j = name ++ " (" ++ natToStr k :=
    strAppendCancelRight h1
  exact strAppendCancelLeft h2

theorem uniqueCandidate_inj (dir name ext : String)
    (hn : '/' ∉ name.data) (he : '/' ∉ ext.data) {j k : Nat}
    (h : uniqueCandidate dir name ext j = uniqueCandidate dir name ext k) : j = k := by
  obtain ⟨P, hP⟩ := pathJoin_regular dir
  have hj := hP (candComp name ext j) (candComp_ne_degenerate name ext j).1
    (candComp_ne_degenerate name ext j).2.1 (candComp_ne_degenerate name ext j).2.2
    (candComp_no_slash name ext j hn he)
  have hk := hP (candComp name ext k) (candComp_ne_degenerate name ext k).1
    (candComp_ne_degenerate name ext k).2.1 (candComp_ne_degenerate name ext k).2.2
    (candComp_no_slash name ext k hn he)
  have hcand : uniqueCandidate dir name ext j = pathJoin dir (candComp name ext j) := rfl
  have hcand2 : uniqueCandidate dir name ext k = pathJoin dir (candComp name ext k) := rfl
  rw [hcand, hcand2, hj, hk] at h
  exact candComp_inj name ext (strAppendCancelLeft h)

theorem uniqueLoop_finds (fs : List String) (dir name ext : String) (n : Nat)
    (hn : 1 ≤ n)
    (hfree : fsExists fs (uniqueCandidate dir name ext n) = false) :
    ∀ fuel c, 1 ≤ c → c ≤ n →
      (∀ k, c ≤ k → k < n → fsExists fs (uniqueCandidate dir name ext k) = true) →
      n - c < fuel →
      uniqueLoop fs dir name ext fuel c = some (uniqueCandidate dir name ext n) := by
  intro fuel
  induction fuel with
  | zero => omega
  | succ f ih =>
    intro c hc1 hcn hbelow hlt
    by_cases hceq : c = n
    · subst hceq
      simp [uniqueLoop, hfree]
    · have hclt : c < n := lt_of_le_of_ne hcn hceq
      have hcex : fsExists fs (uniqueCandidate dir name ext c) = true :=
        hbelow c le_rfl hclt
      simp only [uniqueLoop, hcex, if_pos]
      exact ih (c + 1) (by omega) (by omega)
        (fun k hk1 hk2 => hbelow k (by omega) hk2) (by omega)

theorem candidates_bound (fs : List String) (dir name ext : String) (n : Nat)
    (hn : '/' ∉ name.data) (he : '/' ∉ ext.data)
    (hbelow : ∀ k, 1 ≤ k → k < n → fsExists fs (uniqueCandidate dir name ext k) = true) :
    n - 1 ≤ fs.length := by
  set L : List String := (List.range (n - 1)).map (fun i => uniqueCandidate dir name ext (i + 1))
    with hL
  have hnodup : L.Nodup := by
    rw [hL]
    refine List.Nodup.map ?_ (List.nodup_range _)
    intro i j hij
    have := uniqueCandidate_inj dir name ext hn he hij
    omega
  have hsub : L ⊆ fs := by
    rw [hL]
    intro x hx
    simp only [List.mem_map, List.mem_range] at hx
    obtain ⟨i, hi, rfl⟩ := hx
    have := hbelow (i + 1) (by omega) (by omega)
    simpa [fsExists] using this
  have := (List.subperm_of_subset hnodup hsub).length_le
  simpa [hL] using this

/-! ### Support lemmas -/
theorem removeFirstConnection_length {l : List Connection} {id : String} {l2 : List Connection}
    (h : removeFirstConnection l id = some l2) : l2.length + 1 = l.length := by
  induction l generalizing l2 with
  | nil => simp [removeFirstConnection] at h
  | cons c rest ih =>
    by_cases hc : c.ID = id
    · simp only [removeFirstConnection, hc, if_pos rfl] at h
      cases h
      simp
    · simp only [removeFirstConnection, hc, if_false] at h
      rcases h2 : removeFirstConnection rest id with _ | l3
      · rw [h2] at h; cases h
      · rw [h2] at h
        cases h
        simp [ih h2]

theorem removeFirstConnection_none {l : List Connection} {id : String}
    (h : ∀ x ∈ l, x.ID ≠ id) : removeFirstConnection l id = none := by
  induction l with
  | nil => rfl
  | cons c rest ih =>
    have hc : c.ID ≠ id := h c (List.mem_cons_self _ _)
    simp only [removeFirstConnection, hc, if_false]
    rw [ih fun x hx => h x (List.mem_cons_of_mem _ hx)]

theorem removeFirstConnection_isSome {l : List Connection} {conn : Connection}
    (h : conn ∈ l) : ∃ l2, removeFirstConnection l conn.ID = some l2 := by
  induction l with
  | nil => cases h
  | cons c rest ih =>
    by_cases hc : c.ID = conn.ID
    · exact ⟨rest, by simp [removeFirstConnection, hc]⟩
    · have hmem : conn ∈ rest := by
        rcases List.mem_cons.mp h with h | h
        · exact absurd (h ▸ rfl) hc
        · exact h
      obtain ⟨l2, hl2⟩ := ih hmem
      exact ⟨c :: l2, by simp [removeFirstConnection, hc, hl2]⟩

theorem listGetI_mem {α : Type} {l : List α} {i : Int} {x : α}
    (h : listGetI l i = some x) : x ∈ l := by
  unfold listGetI at h
  split at h
  · cases h
  · exact List.get?_mem h

theorem listGetI_bounds {α : Type} {l : List α} {i : Int} {x : α}
    (h : listGetI l i = some x) : 0 ≤ i ∧ i < (l.length : Int) := by
  unfold listGetI at h
  split at h
  · cases h
  · rename_i hneg
    have h1 : i.toNat < l.length := List.get?_eq_some.mp h |>.1
    omega

theorem getVisibleFileCount_eq (m : SFTPBrowserModel) :
    getVisibleFileCount m =
      if m.height - (if m.err ≠ none ∨ m.successMsg ≠ "" then 14 else 12) < 1 then 1
      else m.height - (if m.err ≠ none ∨ m.successMsg ≠ "" then (14 : Int) else 12) := rfl

theorem one_le_getVisibleFileCount (m : SFTPBrowserModel) : 1 ≤ getVisibleFileCount m := by
  rw [getVisibleFileCount_eq]
  split <;> omega

theorem getVisibleFileCount_fields (m1 m2 : SFTPBrowserModel)
    (he : m1.err = m2.err) (hs : m1.successMsg = m2.successMsg) (hh : m1.height = m2.height) :
    getVisibleFileCount m1 = getVisibleFileCount m2 := by
  rw [getVisibleFileCount_eq, getVisibleFileCount_eq, he, hs, hh]

theorem adjustScroll_eq (m : SFTPBrowserModel) :
    adjustScroll m =
      if m.selectedIndex < m.scrollOffset then
        (if m.selectedIndex ≥ m.selectedIndex + getVisibleFileCount m then
          { m with scrollOffset := m.selectedIndex - getVisibleFileCount m + 1 }
        else { m with scrollOffset := m.selectedIndex })
      else if m.selectedIndex ≥ m.scrollOffset + getVisibleFileCount m then
        { m with scrollOffset := m.selectedIndex - getVisibleFileCount m + 1 }
      else m := by
  have hv := one_le_getVisibleFileCount m
  unfold adjustScroll
  rw [if_neg (by omega : ¬ getVisibleFileCount m ≤ 0)]
  by_cases c1 : m.selectedIndex < m.scrollOffset <;> simp [c1]

theorem viewportInv_adjustScroll (m : SFTPBrowserModel) : viewportInv (adjustScroll m) := by
  have hv := one_le_getVisibleFileCount m
  have h2 : ∀ x : Int, getVisibleFileCount { m with scrollOffset := x } = getVisibleFileCount m :=
    fun x => getVisibleFileCount_fields _ _ rfl rfl rfl
  rw [adjustScroll_eq]
  by_cases c1 : m.selectedIndex < m.scrollOffset
  · rw [if_pos c1,
      if_neg (by omega : ¬ m.selectedIndex ≥ m.selectedIndex + getVisibleFileCount m)]
    unfold viewportInv
    dsimp only
    simp only [h2]
    omega
  · rw [if_neg c1]
    by_cases c2 : m.selectedIndex ≥ m.scrollOffset + getVisibleFileCount m
    · rw [if_pos c2]
      unfold viewportInv
      dsimp only
      simp only [h2]
      omega
    · rw [if_neg c2]
      unfold viewportInv
      omega

theorem getVisibleFileCount_clearMsgs (m : SFTPBrowserModel) :
    getVisibleFileCount m ≤ getVisibleFileCount (clearMsgs m) := by
  rw [getVisibleFileCount_eq, getVisibleFileCount_eq]
  have he : (clearMsgs m).err = none := rfl
  have hs : (clearMsgs m).successMsg = "" := rfl
  have hh : (clearMsgs m).height = m.height := rfl
  rw [he, hs, hh]
  simp only [ne_eq, not_true_eq_false, or_self, if_false]
  split <;> split <;> omega

theorem viewportInv_clearMsgs {m : SFTPBrowserModel} (h : viewportInv m) :
    viewportInv (clearMsgs m) := by
  have hle := getVisibleFileCount_clearMsgs m
  have e1 : (clearMsgs m).selectedIndex = m.selectedIndex := rfl
  have e2 : (clearMsgs m).scrollOffset = m.scrollOffset := rfl
  unfold viewportInv at h ⊢
  rw [e1, e2]
  omega

theorem extRev_no_slash (l : List Char) : '/' ∉ extRev l := by
  induction l with
  | nil => simp [extRev]
  | cons c rest ih =>
    by_cases hc : c = '/'
    · simp [extRev, hc]
    · by_cases hd : c = '.'
      · simp only [extRev, hc, hd, if_false, if_pos rfl]
        simp [hd ▸ hc]
      · simp only [extRev, hc, hd, if_false]
        rcases he : extRev rest with _ | ⟨e, es⟩
        · simp
        · rw [he] at ih
          intro hmem
          rcases List.mem_cons.mp hmem with h | h
          · exact hc h.symm
          · exact ih h

theorem goExt_no_slash (p : String) : '/' ∉ (goExt p).data := by
  unfold goExt
  intro h
  simp only [List.mem_reverse] at h
  exact extRev_no_slash _ h

theorem goTrimSuffix_no_slash {s suf : String} (h : '/' ∉ s.data) :
    '/' ∉ (goTrimSuffix s suf).data := by
  unfold goTrimSuffix
  split
  · intro hmem
    simp only [List.mem_reverse] at hmem
    exact h (by simpa using List.mem_of_mem_drop hmem)
  · exact h

theorem goBase_no_slash (p : String) (h : goBase p ≠ "/") : '/' ∉ (goBase p).data := by
  by_cases hp : p = ""
  · subst hp
    decide
  · unfold goBase at h ⊢
    rw [if_neg hp] at h ⊢
    by_cases hr : p.data.reverse.dropWhile (fun c => c = '/') = []
    · exact absurd (if_pos hr) h
    · rw [if_neg hr]
      intro hmem
      simp only [List.mem_reverse] at hmem
      have := List.mem_takeWhile_imp hmem
      simp at this

/-- C7: a freshly created confirmation modal has "No" (selected = 1) as
the default option; pressing Enter while the selection is not on "Yes"
resolves the modal to cancelled and never flips `confirmed`; `confirmed`
becomes true only by pressing Enter with "Yes" (selected = 0). -/
theorem C7_modal_default_no (t msg : String) (m : ConfirmationModalModel) (k : String) :
    (NewConfirmationModal t msg).selected = 1 ∧
    (m.selected ≠ 0 →
      (m.update "enter").cancelled = true ∧ (m.update "enter").confirmed = m.confirmed) ∧
    ((m.update k).confirmed = true → m.confirmed = true ∨ (k = "enter" ∧ m.selected = 0)) := by
  refine ⟨rfl, ?_, ?_⟩
  · intro h
    unfold ConfirmationModalModel.update
    simp [h]
  · intro hc
    unfold ConfirmationModalModel.update at hc
    split_ifs at hc <;> simp_all

/-- Witness for C7 at a concrete modal: Enter on the fresh modal cancels
and does not confirm. -/
theorem C7_witness :
    ((NewConfirmationModal "Delete Connection" "sure").update "enter").cancelled = true ∧
    ((NewConfirmationModal "Delete Connection" "sure").update "enter").confirmed = false := by
  have h := C7_modal_default_no "Delete Connection" "sure"
    (NewConfirmationModal "Delete Connection" "sure") "enter"
  obtain ⟨-, h2, -⟩ := h
  have := h2 (by decide)
  exact ⟨this.1, this.2.trans (by decide)⟩

/-- C10: `ChangeDir` is atomic on error — any error (not connected, stat
failure, non-directory target) leaves the client unchanged; a failed stat
or a non-directory target always errors; on success the working directory
becomes the cleaned target, joined against the previous working directory
when the target is relative. -/
theorem C10_changeDir_atomic (c : Client) (w : SFTPWorld) (p : String) :
    ((c.changeDir w p).2 ≠ none → (c.changeDir w p).1 = c) ∧
    (∀ e, w.stat p = Except.error e → (c.changeDir w p).2 ≠ none) ∧
    (∀ info, w.stat p = Except.ok info → info.IsDir = false → (c.changeDir w p).2 ≠ none) ∧
    (c.connected = true → ∀ info, w.stat p = Except.ok info → info.IsDir = true →
      (c.changeDir w p).2 = none ∧
      (c.changeDir w p).1.currentDir =
        (if pathIsAbs p then pathClean p else pathClean (pathJoin c.currentDir p))) := by
  by_cases hc : c.connected
  · rcases hstat : w.stat p with e | info
    · refine ⟨?_, ?_, ?_, ?_⟩ <;> simp [Client.changeDir, hc, hstat]
    · by_cases hdir : info.IsDir
      · refine ⟨?_, ?_, ?_, ?_⟩ <;>
          simp [Client.changeDir, hc, hstat, hdir] <;>
          split <;> simp
      · refine ⟨?_, ?_, ?_, ?_⟩ <;> simp [Client.changeDir, hc, hstat, hdir]
  · refine ⟨?_, ?_, ?_, ?_⟩ <;> simp [Client.changeDir, hc]

/-- Witness for C10 at a concrete client and world: changing into relative
`docs` from `/home/u` succeeds and sets the working directory to
`/home/u/docs`; changing into a path the server cannot stat errors and
leaves the working directory unchanged. -/
theorem C10_witness :
    ((Client.mk true "/home/u").changeDir wDirs "docs").1.currentDir = "/home/u/docs" ∧
    ((Client.mk true "/home/u").changeDir wDirs "docs").2 = none := by
  have h := C10_changeDir_atomic (Client.mk true "/home/u") wDirs "docs"
  have h4 := h.2.2.2 (by decide) dirDocs rfl (by decide)
  exact ⟨h4.2.trans (by decide), h4.1⟩

/-- C5: every selection-move operation available in the Browsing state
(up via `k`/`up`, down via `j`/`down`, half-page up `ctrl+u`, half-page
down `ctrl+d`, bottom `G`) preserves the viewport invariant
`scrollOffset ≤ selectedIndex < scrollOffset + visibleCount`. -/
theorem C5_scroll_invariant (w : SFTPWorld) (m : SFTPBrowserModel) (k : String)
    (b : SFTPBrowserModel) (cmd : TeaCmd)
    (hk : k = "k" ∨ k = "up" ∨ k = "j" ∨ k = "down" ∨ k = "ctrl+u" ∨ k = "ctrl+d" ∨ k = "G")
    (hinv : viewportInv m) (h : updateBrowsing w m k = some (b, cmd)) :
    viewportInv b := by
  rcases hk with rfl | rfl | rfl | rfl | rfl | rfl | rfl <;>
    simp only [updateBrowsing, String.reduceEq, or_self, or_false, false_or, or_true, true_or,
      if_true, if_false, reduceIte, Option.some.injEq, Prod.mk.injEq] at h <;>
    obtain ⟨hb, -⟩ := h <;>
    subst hb <;>
    first
      | exact viewportInv_clearMsgs (viewportInv_adjustScroll _)
      | (split <;>
          first
            | exact viewportInv_clearMsgs (viewportInv_adjustScroll _)
            | exact viewportInv_clearMsgs hinv)

/-- Witness for C5 at a concrete browser: the invariant holds before and
after pressing `j`. -/
theorem C5_witness : viewportInv browserBase ∧ viewportInv (clearMsgs browserBase) :=
  ⟨by decide,
    C5_scroll_invariant wHome browserBase "j" (clearMsgs browserBase) TeaCmd.noCmd
      (by decide) (by decide) (by decide)⟩

/-- C1: on form submission with a non-empty password, the first store
write is the keyring write of the password (it precedes any config-file
save), and if the keyring write fails the submission aborts: an error is
surfaced, the in-memory config is unchanged, and no config-file save is
attempted. -/
theorem C1_keyring_before_persist (w : TuiWorld) (m : TuiModel) (f : FormData)
    (hf : m.form = some f) (hpw : f.password ≠ "") :
    (handleFormSubmit w m).2.head? =
      some (StoreEffect.keyringSet (buildKey "conn" f.connection.ID) f.password) ∧
    (w.keyringOk = false →
      (handleFormSubmit w m).1.err ≠ none ∧
      (handleFormSubmit w m).1.config = m.config ∧
      ∀ cfg : Config, StoreEffect.save cfg ∉ (handleFormSubmit w m).2) := by
  unfold handleFormSubmit
  rw [hf]
  dsimp only
  by_cases hk : w.keyringOk
  · constructor
    · rw [if_neg (fun hcontra => absurd hcontra.2 (by simp [hk]))]
      by_cases hmode : f.mode = FormMode.FormModeAdd <;>
        cases hs : w.saveOk <;>
          rcases hload : w.loadResult with e | cfg2 <;>
            rcases hrep : replaceFirstConnection m.config.Connections f.connection with _ | l <;>
              simp [hmode, hs, hload, hrep, hpw, Config.addConnection, Config.updateConnection]
    · intro hfalse
      rw [hk] at hfalse
      cases hfalse
  · have hk2 : w.keyringOk = false := by simpa using hk
    rw [if_pos (by exact ⟨hpw, hk2⟩)]
    simp only [if_neg hpw]
    refine ⟨by simp, fun _ => ⟨by simp, by trivial, fun cfg => by simp⟩⟩

/-- Witness for C1 at a concrete submission whose keyring write fails:
the attempted write trace starts with the keyring write, an error is
surfaced, and the config is untouched. -/
theorem C1_witness :
    (handleFormSubmit wKeyFail mForm).2.head? =
      some (StoreEffect.keyringSet (buildKey "conn" "ida") "pw") ∧
    (handleFormSubmit wKeyFail mForm).1.err ≠ none ∧
    (handleFormSubmit wKeyFail mForm).1.config = mForm.config := by
  have h := C1_keyring_before_persist wKeyFail mForm formAdd (by decide) (by decide)
  have h2 := h.2 (by decide)
  exact ⟨h.1, h2.1, h2.2.1⟩

/-- Counterexample for C3: with one stored connection and a failing
config-file write, the delete reports an error yet the in-memory
connection list has already lost the record — the state transition is not
rolled back. -/
theorem C3_counterexample :
    (confirmDeleteConnection wSaveFail mDelA).map
      (fun p => (p.1.config.Connections, p.1.err.isSome)) = some ([], true) ∧
    mDelA.config.Connections = [connA] := by decide

/-- C3 as amended: a delete that fails because the id is not in the store
leaves the config unchanged, but a delete that fails at the save step has
already removed the record from the in-memory connection list (the failed
save leaves only the on-disk copy intact); the error is surfaced in both
cases. -/
theorem C3_delete_failure_behavior :
    (∀ (cfg : Config) (id : String) (saveOk : Bool),
      (∀ x ∈ cfg.Connections, x.ID ≠ id) →
      (cfg.deleteConnection id saveOk).1 = cfg ∧
      (cfg.deleteConnection id saveOk).2.1.isSome = true) ∧
    (∀ (w : TuiWorld) (m : TuiModel) (conn : Connection) (l : List Connection)
      (r : TuiModel × List StoreEffect),
      listGetI m.config.Connections m.selectedIndex = some conn →
      w.saveOk = false →
      removeFirstConnection m.config.Connections conn.ID = some l →
      confirmDeleteConnection w m = some r →
      r.1.err.isSome = true ∧ r.1.config.Connections = l) := by
  constructor
  · intro cfg id saveOk hno
    unfold Config.deleteConnection
    rw [removeFirstConnection_none hno]
    exact ⟨rfl, rfl⟩
  · intro w m conn l r hget hsave hrem hrun
    unfold confirmDeleteConnection at hrun
    rw [hget] at hrun
    dsimp only at hrun
    unfold Config.deleteConnection at hrun
    rw [hrem, hsave] at hrun
    dsimp only at hrun
    cases hrun
    exact ⟨rfl, rfl⟩

/-- Witness for C3's amended statement at concrete inputs. -/
theorem C3_witness :
    ((cfgA.deleteConnection "zz" false).1 = cfgA) ∧
    (∀ r : TuiModel × List StoreEffect,
      confirmDeleteConnection wSaveFail mDelA = some r →
      r.1.err.isSome = true ∧ r.1.config.Connections = []) := by
  have h := C3_delete_failure_behavior
  refine ⟨(h.1 cfgA "zz" false (by decide)).1, fun r hr => ?_⟩
  exact h.2 wSaveFail mDelA connA [] r (by decide) (by decide) (by decide) hr

/-- Counterexample for C4: with two stored connections, the last one
selected, and a failing config-file save, the delete leaves
`selectedIndex = 1` while the list now has length 1 — the claimed index
invariant fails after a list-mutating operation, because the re-clamp is
skipped on the error path. -/
theorem C4_counterexample :
    connIndexInv mDelB ∧
    (confirmDeleteConnection wSaveFail mDelB).map
      (fun p => (p.1.selectedIndex, p.1.config.Connections.length, decide (connIndexInv p.1))) =
      some (1, 1, false) := by decide

/-- C4 as amended: if the index invariant held before, it holds after a
directory reload, after the hidden-filter toggle (the `.` key), and after
a connection delete whose config-file save succeeds; a delete that fails
at the save step skips the re-clamp (see the counterexample). -/
theorem C4_index_invariant_amended :
    (∀ (w : SFTPWorld) (m : SFTPBrowserModel),
      browserIndexInv m → browserIndexInv (loadCurrentDirectory w m)) ∧
    (∀ (w : SFTPWorld) (m b : SFTPBrowserModel) (c : TeaCmd),
      browserIndexInv m → updateBrowsing w m "." = some (b, c) → browserIndexInv b) ∧
    (∀ (w : TuiWorld) (m : TuiModel) (r : TuiModel × List StoreEffect),
      w.saveOk = true → connIndexInv m →
      confirmDeleteConnection w m = some r → connIndexInv r.1) := by
  have part1 : ∀ (w : SFTPWorld) (m : SFTPBrowserModel),
      browserIndexInv m → browserIndexInv (loadCurrentDirectory w m) := by
    intro w m hm
    have h0 : 0 ≤ m.selectedIndex := by
      rcases Nat.eq_zero_or_pos m.files.length with h | h
      · exact le_of_eq (hm.1 h).symm
      · exact (hm.2 h).1
    unfold loadCurrentDirectory
    rcases hld : m.client.listDir w m.currentPath with e | files
    · unfold browserIndexInv at hm ⊢
      dsimp only
      exact hm
    · dsimp only
      by_cases hsel : m.selectedIndex ≥
          (((if ¬ m.showHidden then files.filter (fun f => ¬ startsWithDot f.Name)
            else files).length : Nat) : Int)
      · rw [if_pos hsel]
        unfold browserIndexInv
        dsimp only
        constructor
        · intro _; rfl
        · intro hlen
          exact ⟨le_rfl, by exact_mod_cast hlen⟩
      · rw [if_neg hsel]
        unfold browserIndexInv
        dsimp only
        omega
  refine ⟨part1, ?_, ?_⟩
  · intro w m b c hm h
    simp only [updateBrowsing, String.reduceEq, or_self, or_false, false_or, or_true, true_or,
      if_true, if_false, reduceIte, Option.some.injEq, Prod.mk.injEq] at h
    obtain ⟨hb, -⟩ := h
    subst hb
    have step := part1 w { m with showHidden := ¬ m.showHidden }
      (by unfold browserIndexInv at hm ⊢; exact hm)
    unfold browserIndexInv at step ⊢
    unfold clearMsgs
    dsimp only
    exact step
  · intro w m r hsave hm hrun
    unfold confirmDeleteConnection at hrun
    rcases hget : listGetI m.config.Connections m.selectedIndex with _ | conn
    · rw [hget] at hrun; cases hrun
    · rw [hget] at hrun
      dsimp only at hrun
      unfold Config.deleteConnection at hrun
      rcases hrem : removeFirstConnection m.config.Connections conn.ID with _ | l
      · rw [hrem] at hrun
        dsimp only at hrun
        cases hrun
        unfold connIndexInv at hm ⊢
        dsimp only
        exact hm
      · rw [hrem, hsave] at hrun
        dsimp only at hrun
        have hlen := removeFirstConnection_length hrem
        have hb := listGetI_bounds hget
        by_cases hclamp : m.selectedIndex ≥ (l.length : Int) ∧ m.selectedIndex > (0 : Int)
        · rw [if_pos hclamp] at hrun
          cases hrun
          unfold connIndexInv
          dsimp only
          omega
        · rw [if_neg hclamp] at hrun
          cases hrun
          unfold connIndexInv
          dsimp only
          omega

/-- Witness for C4's amended statement at concrete inputs. -/
theorem C4_witness :
    browserIndexInv (loadCurrentDirectory wHome browserBase) ∧
    (∀ r : TuiModel × List StoreEffect,
      confirmDeleteConnection wSaveOk mDelB = some r → connIndexInv r.1) := by
  have h := C4_index_invariant_amended
  exact ⟨h.1 wHome browserBase (by decide),
    fun r hr => h.2.2 wSaveOk mDelB r (by decide) (by decide) hr⟩

/-- Counterexample for C2: in the DeleteConfirm state, a key that is
neither the affirmative nor n/N/esc (here `x`) does not cancel back to
Browsing — it leaves the browser in the DeleteConfirm state. -/
theorem C2_counterexample :
    updateDeleteConfirm wHome mDelConfirm "x" = some (mDelConfirm, []) ∧
    mDelConfirm.state ≠ SFTPBrowserState.BrowsingState := by decide

/-- C2 as amended: `y`/`Y` performs the delete through the session
capability — which stats the path and dispatches directory vs. file
removal on the stat result, agreeing with the entry's is-directory flag
when the hypotheses tie them together — and reloads the directory,
returning to Browsing; `n`/`N`/`esc` cancels back to Browsing; any other
key leaves the model unchanged, still in DeleteConfirm. -/
theorem C2_delete_confirm_amended (w : SFTPWorld) (m : SFTPBrowserModel) (k : String) :
    (∀ (f info : FileInfo) (l : List FileInfo),
      (k = "y" ∨ k = "Y") →
      listGetI m.files m.selectedIndex = some f →
      m.client.connected = true →
      w.stat (pathJoin m.currentPath f.Name) = Except.ok info →
      info.IsDir = f.IsDir →
      (if f.IsDir then w.removeDirErr (pathJoin m.currentPath f.Name)
        else w.removeFileErr (pathJoin m.currentPath f.Name)) = none →
      w.readDir m.currentPath = Except.ok l →
      (updateDeleteConfirm w m k).map (fun p => (p.1.state, p.1.files, p.2)) =
        some (SFTPBrowserState.BrowsingState,
          (if m.showHidden then l else l.filter (fun f2 => ¬ startsWithDot f2.Name)),
          [if f.IsDir then RemoteEffect.removeDirectory (pathJoin m.currentPath f.Name)
            else RemoteEffect.removeFile (pathJoin m.currentPath f.Name)])) ∧
    ((k = "n" ∨ k = "N" ∨ k = "esc") →
      updateDeleteConfirm w m k = some ({ m with state := SFTPBrowserState.BrowsingState }, [])) ∧
    (¬ (k = "y" ∨ k = "Y" ∨ k = "n" ∨ k = "N" ∨ k = "esc") →
      updateDeleteConfirm w m k = some (m, [])) := by
  refine ⟨?_, ?_, ?_⟩
  · intro f info l hk hget hconn hstat hinfo hremove hlist
    have hb := listGetI_bounds hget
    unfold updateDeleteConfirm
    rw [if_pos hk, if_pos hb.2, hget]
    dsimp only
    unfold Client.delete
    rw [hconn]
    simp only [not_true_eq_false, if_false, hstat, reduceIte]
    rw [hinfo]
    cases hdir : f.IsDir
    · rw [hdir] at hremove
      simp only [Bool.false_eq_true, if_false, reduceIte] at hremove
      simp only [hdir, hremove, Bool.false_eq_true, if_false, reduceIte]
      unfold loadCurrentDirectory Client.listDir
      rw [hconn]
      simp only [not_true_eq_false, if_false, reduceIte, hlist]
      dsimp only
      split_ifs <;> simp
    · rw [hdir] at hremove
      simp only [if_true, reduceIte] at hremove
      simp only [hdir, hremove, if_true, reduceIte]
      unfold loadCurrentDirectory Client.listDir
      rw [hconn]
      simp only [not_true_eq_false, if_false, reduceIte, hlist]
      dsimp only
      split_ifs <;> simp
  · intro hk
    rcases hk with rfl | rfl | rfl <;>
      · unfold updateDeleteConfirm
        rw [if_neg (by decide), if_pos (by decide)]
  · intro hk
    push_neg at hk
    obtain ⟨h1, h2, h3, h4, h5⟩ := hk
    unfold updateDeleteConfirm
    rw [if_neg (by simp [h1, h2]), if_neg (by simp [h3, h4, h5])]

/-- Witness for C2's amended statement: deleting the selected plain file
issues a file removal (not a directory removal), reloads the listing, and
returns to Browsing. -/
theorem C2_witness :
    (updateDeleteConfirm wHome mDelConfirm "y").map (fun p => (p.1.state, p.1.files, p.2)) =
      some (SFTPBrowserState.BrowsingState, [fileNotes],
        [RemoteEffect.removeFile "/home/u/notes.txt"]) := by
  have h := (C2_delete_confirm_amended wHome mDelConfirm "y").1 fileNotes fileNotes
    [fileBashrc, fileNotes] (Or.inl rfl) (by decide) (by decide) rfl rfl (by decide) rfl
  refine h.trans ?_
  decide

/-- C9 (code-bug evidence): the Browsing-state handlers for copy-path
(`y`), download (`D`) and home navigation (`~`) fall through to the
unconditional clear at the end of `updateBrowsing`, so the message their
operation just stored is wiped before `Update` returns.  The middle
conjuncts show the inner operations do set the message (`Downloaded: …`)
or the error (failed `~` reload) that the returned model has lost. -/
theorem C9_messages_wiped_same_update :
    (updateBrowsing wHome browserBase "y").map (fun p => (p.1.successMsg, p.1.err)) =
      some ("", none) ∧
    (downloadSelectedFile wHome browserBase).map (fun p => p.successMsg) =
      some "Downloaded: notes.txt" ∧
    (updateBrowsing wHome browserBase "D").map (fun p => (p.1.successMsg, p.1.err)) =
      some ("", none) ∧
    (loadCurrentDirectory wHome { browserBase with currentPath := "~" }).err =
      some "failed to read directory: failed" ∧
    (updateBrowsing wHome browserBase "~").map (fun p => (p.1.successMsg, p.1.err)) =
      some ("", none) := by decide

/-- C8: directory load applies the hidden-entry filter exactly when the
toggle is off, and toggling hidden files in a directory containing
`.bashrc` and `notes.txt` changes the visible count from 1 to 2. -/
theorem C8_hidden_filter (w : SFTPWorld) (m : SFTPBrowserModel) (l : List FileInfo) :
    (m.client.connected = true → w.readDir m.currentPath = Except.ok l →
      (loadCurrentDirectory w m).files =
        (if m.showHidden then l else l.filter (fun f => ¬ startsWithDot f.Name))) ∧
    ((loadCurrentDirectory wHome browserBase).files.length = 1 ∧
      (updateBrowsing wHome (loadCurrentDirectory wHome browserBase) ".").map
        (fun p => p.1.files.length) = some 2) := by
  constructor
  · intro hconn hlist
    unfold loadCurrentDirectory Client.listDir
    rw [hconn]
    simp only [not_true_eq_false, if_false, reduceIte, hlist]
    by_cases hsh : m.showHidden <;>
      simp only [hsh, Bool.not_true, Bool.not_false, if_true, if_false, reduceIte] <;>
      split_ifs <;> simp_all
  · exact ⟨by decide, by decide⟩

/-- Witness for C8 at a concrete directory listing. -/
theorem C8_witness :
    (loadCurrentDirectory wHome browserBase).files = [fileNotes] := by
  have h := (C8_hidden_filter wHome browserBase [fileBashrc, fileNotes]).1 (by decide) rfl
  refine h.trans ?_
  decide

/-- C6: `getUniqueFilePath` returns the original path when no file exists
at it; otherwise it returns the candidate `base (n).ext` with the least
counter `n ≥ 1` whose path does not exist (the hypothesis `goBase p ≠ "/"`
rules out the degenerate all-slash path with no file-name element); in particular downloading `report.txt` next to an existing
`report.txt` yields `report (1).txt`, and with both present
`report (2).txt`. -/
theorem C6_unique_destination (fs : List String) (p : String) (n : Nat) :
    (fsExists fs p = false → getUniqueFilePath fs p = p) ∧
    (fsExists fs p = true → 1 ≤ n → goBase p ≠ "/" →
      (∀ k, 1 ≤ k → k < n → fsExists fs (candPath p k) = true) →
      fsExists fs (candPath p n) = false →
      getUniqueFilePath fs p = candPath p n) ∧
    (getUniqueFilePath ["/h/Downloads/report.txt"] "/h/Downloads/report.txt" =
        "/h/Downloads/report (1).txt" ∧
      getUniqueFilePath ["/h/Downloads/report.txt", "/h/Downloads/report (1).txt"]
          "/h/Downloads/report.txt" = "/h/Downloads/report (2).txt") := by
  refine ⟨?_, ?_, by decide, by decide⟩
  · intro h
    unfold getUniqueFilePath
    rw [h]
    simp
  · intro hex h1 hbase hbelow hfree
    have hname : '/' ∉ (goTrimSuffix (goBase p) (goExt p)).data :=
      goTrimSuffix_no_slash (goBase_no_slash p hbase)
    have hbound : n - 1 ≤ fs.length :=
      candidates_bound fs (goDir p) (goTrimSuffix (goBase p) (goExt p)) (goExt p) n
        hname (goExt_no_slash p) (fun k hk1 hk2 => hbelow k hk1 hk2)
    have hloop := uniqueLoop_finds fs (goDir p) (goTrimSuffix (goBase p) (goExt p)) (goExt p)
      n h1 hfree (fs.length + 1) 1 le_rfl h1 (fun k hk1 hk2 => hbelow k hk1 hk2) (by omega)
    unfold getUniqueFilePath
    rw [hex]
    simp only [Bool.true_eq_false, not_true_eq_false, if_false, reduceIte]
    rw [hloop]
    rfl

/-- Witness for C6's general clauses at a concrete filesystem. -/
theorem C6_witness :
    getUniqueFilePath ["/h/Downloads/report.txt"] "/h/Downloads/report.txt" =
      candPath "/h/Downloads/report.txt" 1 := by
  exact (C6_unique_destination ["/h/Downloads/report.txt"] "/h/Downloads/report.txt" 1).2.1
    (by decide) le_rfl (by decide) (fun k hk1 hk2 => absurd (lt_of_le_of_lt hk1 hk2) (by omega))
    (by decide)

end Bifrost
